import Mathlib

/-!
# NICES-GEO client scripts: search history and theme preference

A shallow embedding of `static/script.js` (search history kept in
`searchHistoryItems` and under the `searchHistory` key of `localStorage`) and of
`static/output.js` (theme preference kept in the `data-theme` attribute and under
the `theme` key), followed by the properties proved about them.

JavaScript strings are modelled as their sequences of UTF-16 code units, so that
every string value the scripts can receive (unpaired surrogates included) is a
value of the model.

The built-ins the scripts call (`String.prototype.trim`, `Array.prototype.slice`,
`JSON.stringify`, `JSON.parse`, `ToBoolean`) are not code of the repository; they
are written here after their definitions in ECMA-262. `JSON.parse` is a parser
with fuel; `JSON_parse_ne_outOfFuel` shows that the fuel is never used up, so on
every text it ends with a value or with `SyntaxError`.
-/

namespace NicesGeo

/-! ## Strings -/

/-- A JavaScript string, as the list of its UTF-16 code units. -/
abbrev JSString := List Nat

/-- UTF-16 encoding of one Unicode scalar value. -/
def utf16Char (c : Char) : List Nat :=
  if c.toNat < 0x10000 then [c.toNat]
  else [0xD800 + (c.toNat - 0x10000) / 0x400, 0xDC00 + (c.toNat - 0x10000) % 0x400]

/-- The JavaScript string written as the literal `s`. -/
def utf16 (s : String) : JSString :=
  (s.toList.map utf16Char).foldr (fun u acc => u ++ acc) []

/-- ECMAScript `WhiteSpace` and `LineTerminator` code points, the ones
`String.prototype.trim` strips: TAB, LF, VT, FF, CR, SP, NBSP, the `Zs`
category (U+1680, U+2000 to U+200A, U+202F, U+205F, U+3000), LS, PS and
ZWNBSP. -/
def isWhiteSpace (u : Nat) : Bool :=
  u == 0x09 || u == 0x0A || u == 0x0B || u == 0x0C || u == 0x0D || u == 0x20 ||
  u == 0xA0 || u == 0x1680 || (0x2000 ≤ u && u ≤ 0x200A) || u == 0x2028 ||
  u == 0x2029 || u == 0x202F || u == 0x205F || u == 0x3000 || u == 0xFEFF

/-- `String.prototype.trim`: white space removed from both ends. -/
def trim (s : JSString) : JSString :=
  ((s.dropWhile isWhiteSpace).reverse.dropWhile isWhiteSpace).reverse

/-- `ToBoolean` of a string: only the empty string is falsy. -/
def JSString.truthy (s : JSString) : Bool := !s.isEmpty

/-! ## Arrays -/

/-- `Array.prototype.slice(start, end)` with integer arguments: a negative
index counts from the end, both indices are clamped to the length. -/
def slice {α : Type} (xs : List α) (start stop : Int) : List α :=
  let len : Int := xs.length
  let k : Int := if start < 0 then max (len + start) 0 else min start len
  let final : Int := if stop < 0 then max (len + stop) 0 else min stop len
  (xs.drop k.toNat).take (final - k).toNat

/-! ## JSON text of an array of strings -/

/-- Lower-case hexadecimal digit of `d < 16`, as a code unit. -/
def hexDigit (d : Nat) : Nat := if d < 10 then 0x30 + d else 0x61 + (d - 10)

/-- The escape `\uXXXX` of a code unit, lower-case digits. -/
def unicodeEscape (u : Nat) : List Nat :=
  [0x5C, 0x75, hexDigit (u / 4096 % 16), hexDigit (u / 256 % 16), hexDigit (u / 16 % 16),
    hexDigit (u % 16)]

/-- A leading (high) surrogate code unit. -/
def isLeadingSurrogate (u : Nat) : Bool := 0xD800 ≤ u && u ≤ 0xDBFF

/-- A trailing (low) surrogate code unit. -/
def isTrailingSurrogate (u : Nat) : Bool := 0xDC00 ≤ u && u ≤ 0xDFFF

/-- One code unit that is not part of a surrogate pair, as `QuoteJSONString`
writes it: the two-character escapes of the table, `\uXXXX` for the other
control characters and for an unpaired surrogate, the unit itself otherwise. -/
def quoteUnit (u : Nat) : List Nat :=
  if u == 0x08 then [0x5C, 0x62]
  else if u == 0x09 then [0x5C, 0x74]
  else if u == 0x0A then [0x5C, 0x6E]
  else if u == 0x0C then [0x5C, 0x66]
  else if u == 0x0D then [0x5C, 0x72]
  else if u == 0x22 then [0x5C, 0x22]
  else if u == 0x5C then [0x5C, 0x5C]
  else if u < 0x20 || isLeadingSurrogate u || isTrailingSurrogate u then unicodeEscape u
  else [u]

/-- The characters `QuoteJSONString` writes between the quotes: the string is
read code point by code point, a leading surrogate followed by a trailing one
being one code point, written as its two units. -/
def quoteBody : JSString → List Nat
  | [] => []
  | [u] => quoteUnit u
  | u :: v :: rest =>
    if isLeadingSurrogate u && isTrailingSurrogate v then u :: v :: quoteBody rest
    else quoteUnit u ++ quoteBody (v :: rest)

/-- `QuoteJSONString`. -/
def quoteJSONString (s : JSString) : JSString := 0x22 :: (quoteBody s ++ [0x22])

/-- The elements of a JSON array separated by commas. -/
def joinComma : List JSString → JSString
  | [] => []
  | [x] => x
  | x :: y :: rest => x ++ 0x2C :: joinComma (y :: rest)

/-- `JSON.stringify` at an array of strings, without indentation. -/
def JSON.stringify (items : List JSString) : JSString :=
  0x5B :: (joinComma (items.map quoteJSONString) ++ [0x5D])

/-! ## JSON values and `JSON.parse` -/

/-- The values `JSON.parse` builds. A number keeps the exact decimal value
`± digits * 10 ^ exponent` of its literal; an object keeps its members in the
order of the text. -/
inductive JSValue where
  | null
  | bool (b : Bool)
  | number (negative : Bool) (digits : Nat) (exponent : Int)
  | string (s : JSString)
  | array (elements : List JSValue)
  | object (members : List (JSString × JSValue))

/-- `ToBoolean`: `null`, `false`, a number that is zero (its literal denotes
zero or rounds to zero, being at most `2 ^ (-1075)`) and the empty string are
falsy, every other value is truthy. -/
def JSValue.truthy : JSValue → Bool
  | .null => false
  | .bool b => b
  | .number _ digits exponent =>
    !(digits == 0 || (exponent < 0 && digits * 2 ^ 1075 ≤ 10 ^ (-exponent).toNat))
  | .string s => s.truthy
  | .array _ => true
  | .object _ => true

/-- The strings of an array of strings, `none` for any other value. -/
def JSValue.asStrings : JSValue → Option (List JSString)
  | .array elements =>
    elements.foldr
      (fun v acc =>
        match v, acc with
        | .string s, some l => some (s :: l)
        | _, _ => none)
      (some [])
  | _ => none

/-- How an evaluation ends: with a value, by throwing `SyntaxError`, or, for
the fuelled parser only, by running out of fuel. -/
inductive Completion (α : Type) where
  | value (v : α)
  | syntaxError
  | outOfFuel

/-- The next step applied to the value of a completion. -/
def Completion.andThen {α β : Type} (c : Completion α) (f : α → Completion β) : Completion β :=
  match c with
  | .value v => f v
  | .syntaxError => .syntaxError
  | .outOfFuel => .outOfFuel

/-- JSON white space: TAB, LF, CR and SP. -/
def isJSONWhiteSpace (u : Nat) : Bool := u == 0x09 || u == 0x0A || u == 0x0D || u == 0x20

/-- White space skipped. -/
def skipWS (input : List Nat) : List Nat := input.dropWhile isJSONWhiteSpace

/-- Value of a hexadecimal digit of either case. -/
def hexValue (u : Nat) : Option Nat :=
  if 0x30 ≤ u && u ≤ 0x39 then some (u - 0x30)
  else if 0x61 ≤ u && u ≤ 0x66 then some (u - 0x61 + 10)
  else if 0x41 ≤ u && u ≤ 0x46 then some (u - 0x41 + 10)
  else none

/-- The code unit a two-character escape stands for. -/
def escapeValue (u : Nat) : Option Nat :=
  if u == 0x22 then some 0x22
  else if u == 0x2F then some 0x2F
  else if u == 0x5C then some 0x5C
  else if u == 0x62 then some 0x08
  else if u == 0x66 then some 0x0C
  else if u == 0x6E then some 0x0A
  else if u == 0x72 then some 0x0D
  else if u == 0x74 then some 0x09
  else none

/-- The rest of a string literal, after its opening quote: the string and the
input left after the closing quote. A control character, an unknown escape or
the end of the input is a syntax error. -/
def parseStringBody : List Nat → Completion (JSString × List Nat)
  | [] => .syntaxError
  | u :: rest =>
    if u == 0x22 then .value ([], rest)
    else if u == 0x5C then
      match rest with
      | [] => .syntaxError
      | e :: rest2 =>
        if e == 0x75 then
          match rest2 with
          | a :: b :: c :: d :: rest3 =>
            match hexValue a, hexValue b, hexValue c, hexValue d with
            | some a, some b, some c, some d =>
              (parseStringBody rest3).andThen fun r =>
                .value ((a * 4096 + b * 256 + c * 16 + d) :: r.1, r.2)
            | _, _, _, _ => .syntaxError
          | _ => .syntaxError
        else
          match escapeValue e with
          | some x => (parseStringBody rest2).andThen fun r => .value (x :: r.1, r.2)
          | none => .syntaxError
    else if u < 0x20 then .syntaxError
    else (parseStringBody rest).andThen fun r => .value (u :: r.1, r.2)

/-- A decimal digit. -/
def isDigit (u : Nat) : Bool := 0x30 ≤ u && u ≤ 0x39

/-- Value of a digit sequence read in base ten. -/
def digitsValue (ds : List Nat) : Nat := ds.foldl (fun n d => n * 10 + (d - 0x30)) 0

/-- The optional fraction of a number: its digits and the input left. A point
that no digit follows is a syntax error. -/
def parseFraction (input : List Nat) : Completion (List Nat × List Nat) :=
  match input with
  | u :: rest =>
    if u == 0x2E then
      if (rest.takeWhile isDigit).isEmpty then .syntaxError
      else .value (rest.takeWhile isDigit, rest.dropWhile isDigit)
    else .value ([], input)
  | [] => .value ([], input)

/-- The digits of an exponent, after its sign. -/
def parseExponentDigits (negative : Bool) (input : List Nat) : Completion (Int × List Nat) :=
  if (input.takeWhile isDigit).isEmpty then .syntaxError
  else
    let n : Int := digitsValue (input.takeWhile isDigit)
    .value (if negative then -n else n, input.dropWhile isDigit)

/-- The optional exponent of a number and the input left. -/
def parseExponent (input : List Nat) : Completion (Int × List Nat) :=
  match input with
  | u :: rest =>
    if u == 0x65 || u == 0x45 then
      match rest with
      | s :: rest2 =>
        if s == 0x2B then parseExponentDigits false rest2
        else if s == 0x2D then parseExponentDigits true rest2
        else parseExponentDigits false rest
      | [] => .syntaxError
    else .value (0, input)
  | [] => .value (0, input)

/-- A number without its sign: `0` or a digit sequence not starting with `0`,
then the optional fraction and exponent. -/
def parseUnsigned (negative : Bool) (input : List Nat) : Completion (JSValue × List Nat) :=
  match input with
  | u :: rest =>
    if !isDigit u then .syntaxError
    else
      let intDigits := if u == 0x30 then [u] else u :: rest.takeWhile isDigit
      let afterInt := if u == 0x30 then rest else rest.dropWhile isDigit
      (parseFraction afterInt).andThen fun f =>
        (parseExponent f.2).andThen fun e =>
          .value (.number negative (digitsValue (intDigits ++ f.1)) (e.1 - f.1.length), e.2)
  | [] => .syntaxError

/-- A number literal. -/
def parseNumber (input : List Nat) : Completion (JSValue × List Nat) :=
  match input with
  | u :: rest => if u == 0x2D then parseUnsigned true rest else parseUnsigned false input
  | [] => .syntaxError

/-- One of the literals `null`, `true`, `false`. -/
def parseLiteral (input : List Nat) : Completion (JSValue × List Nat) :=
  if [0x6E, 0x75, 0x6C, 0x6C] <+: input then .value (.null, input.drop 4)
  else if [0x74, 0x72, 0x75, 0x65] <+: input then .value (.bool true, input.drop 4)
  else if [0x66, 0x61, 0x6C, 0x73, 0x65] <+: input then .value (.bool false, input.drop 5)
  else .syntaxError

mutual

/-- A JSON value at the head of the input (white space already skipped) and
the input left after it. Each level of nesting uses fuel. -/
def parseValue : Nat → List Nat → Completion (JSValue × List Nat)
  | 0, _ => .outOfFuel
  | fuel + 1, input =>
    match input with
    | [] => .syntaxError
    | u :: rest =>
      if u == 0x22 then
        (parseStringBody rest).andThen fun r => .value (.string r.1, r.2)
      else if u == 0x5B then
        match skipWS rest with
        | [] => .syntaxError
        | v :: rest2 =>
          if v == 0x5D then .value (.array [], rest2)
          else (parseElements fuel (v :: rest2)).andThen fun r => .value (.array r.1, r.2)
      else if u == 0x7B then
        match skipWS rest with
        | [] => .syntaxError
        | v :: rest2 =>
          if v == 0x7D then .value (.object [], rest2)
          else (parseMembers fuel (v :: rest2)).andThen fun r => .value (.object r.1, r.2)
      else if u == 0x2D || isDigit u then parseNumber input
      else parseLiteral input

/-- The elements of a non-empty array up to its closing bracket. -/
def parseElements : Nat → List Nat → Completion (List JSValue × List Nat)
  | 0, _ => .outOfFuel
  | fuel + 1, input =>
    (parseValue fuel input).andThen fun r =>
      match skipWS r.2 with
      | [] => .syntaxError
      | c :: rest =>
        if c == 0x2C then
          (parseElements fuel (skipWS rest)).andThen fun rs => .value (r.1 :: rs.1, rs.2)
        else if c == 0x5D then .value ([r.1], rest)
        else .syntaxError

/-- The members of a non-empty object up to its closing brace. -/
def parseMembers : Nat → List Nat → Completion (List (JSString × JSValue) × List Nat)
  | 0, _ => .outOfFuel
  | fuel + 1, input =>
    match input with
    | [] => .syntaxError
    | q :: afterQuote =>
      if q != 0x22 then .syntaxError
      else
        (parseStringBody afterQuote).andThen fun k =>
          match skipWS k.2 with
          | [] => .syntaxError
          | colon :: afterColon =>
            if colon != 0x3A then .syntaxError
            else
              (parseValue fuel (skipWS afterColon)).andThen fun r =>
                match skipWS r.2 with
                | [] => .syntaxError
                | c :: rest =>
                  if c == 0x2C then
                    (parseMembers fuel (skipWS rest)).andThen fun rs =>
                      .value ((k.1, r.1) :: rs.1, rs.2)
                  else if c == 0x7D then .value ([(k.1, r.1)], rest)
                  else .syntaxError

end

/-- `JSON.parse(text)` without reviver: one value, white space allowed around
it, nothing else. The fuel exceeds what any text of this length can use. -/
def JSON.parse (text : JSString) : Completion JSValue :=
  (parseValue (2 * text.length + 2) (skipWS text)).andThen fun r =>
    match skipWS r.2 with
    | [] => .value r.1
    | _ :: _ => .syntaxError

/-- The completion is not an exhaustion of the fuel and, when it is a value,
leaves at most `n` code units of input. -/
def Completion.Within {α : Type} (c : Completion (α × List Nat)) (n : Nat) : Prop :=
  c ≠ .outOfFuel ∧ ∀ v rest, c = .value (v, rest) → rest.length ≤ n

/-! ## Page state of `script.js` -/

/-- The entries of `localStorage` that the two scripts use; `none` is the
`null` that `getItem` returns for a missing key. -/
structure LocalStorage where
  theme : Option JSString
  darkMode : Option JSString
  sidebarCollapsed : Option JSString
  searchHistory : Option JSString
  deriving DecidableEq, Repr

/-- The state `script.js` works on: the module variable `searchHistoryItems`,
the storage, and the texts of the `history-item` children of the
`search-history` element. -/
structure Page where
  searchHistoryItems : List JSString
  localStorage : LocalStorage
  searchHistory : List JSString
  deriving DecidableEq, Repr

/-- The items `renderSearchHistory` displays: `searchHistoryItems.slice(0, 10)`. -/
def displayItems (searchHistoryItems : List JSString) : List JSString :=
  slice searchHistoryItems 0 10

/-- `renderSearchHistory`: the element is emptied and one entry per displayed
item is appended, its text being the item. -/
def renderSearchHistory (p : Page) : Page :=
  { p with searchHistory := displayItems p.searchHistoryItems }

/-- `saveSearchQuery(query)`. -/
def saveSearchQuery (p : Page) (query : JSString) : Page :=
  if !(trim query).truthy then p
  else
    let items := p.searchHistoryItems.filter (fun item => item != query)
    let items := query :: items
    let items := if items.length > 20 then slice items 0 20 else items
    renderSearchHistory
      { p with
        searchHistoryItems := items
        localStorage := { p.localStorage with searchHistory := some (JSON.stringify items) } }

/-- The page after `saveSearchQuery` was called with each query in turn. -/
def saveAll (p : Page) (queries : List JSString) : Page :=
  queries.foldl saveSearchQuery p

/-- An empty storage. -/
def LocalStorage.empty : LocalStorage := ⟨none, none, none, none⟩

/-- The page with an empty history and nothing stored. -/
def Page.empty : Page := ⟨[], LocalStorage.empty, []⟩

/-- The load at the top of `script.js`:
`JSON.parse(localStorage.getItem('searchHistory')) || []`. A missing entry is
`null`, which `JSON.parse` converts to the text `null`. Nothing catches what
`JSON.parse` throws. -/
def loadSearchHistory (localStorage : LocalStorage) : Completion JSValue :=
  let text :=
    match localStorage.searchHistory with
    | none => utf16 "null"
    | some entry => entry
  (JSON.parse text).andThen fun v => .value (if v.truthy then v else .array [])

/-! ## Page state of `output.js` -/

/-- The state `output.js` works on: the `data-theme` attribute of the root
element (`none` when absent), the storage, and the `innerHTML` of the toggle
button. -/
structure ThemePage where
  dataTheme : Option JSString
  localStorage : LocalStorage
  themeToggleBtn : JSString
  deriving DecidableEq, Repr

/-- `updateToggleButton(theme)`. -/
def updateToggleButton (p : ThemePage) (theme : JSString) : ThemePage :=
  if theme == utf16 "dark" then
    { p with themeToggleBtn := utf16 "<i class=\"fas fa-sun\"></i> <span>Light Mode</span>" }
  else
    { p with themeToggleBtn := utf16 "<i class=\"fas fa-moon\"></i> <span>Dark Mode</span>" }

/-- The top of `output.js`: a saved theme, when there is a non-empty one, is
applied; otherwise the system preference for dark, when it matches. -/
def applySavedTheme (p : ThemePage) (prefersDarkScheme : Bool) : ThemePage :=
  match p.localStorage.theme with
  | some savedTheme =>
    if savedTheme.truthy then
      updateToggleButton { p with dataTheme := some savedTheme } savedTheme
    else if prefersDarkScheme then
      updateToggleButton { p with dataTheme := some (utf16 "dark") } (utf16 "dark")
    else p
  | none =>
    if prefersDarkScheme then
      updateToggleButton { p with dataTheme := some (utf16 "dark") } (utf16 "dark")
    else p

/-- The theme the click handler computes from the current one. -/
def newTheme (currentTheme : Option JSString) : JSString :=
  if currentTheme == some (utf16 "dark") then utf16 "light" else utf16 "dark"

/-- The click handler of the theme toggle button. -/
def themeToggleClick (p : ThemePage) : ThemePage :=
  let theme := newTheme p.dataTheme
  updateToggleButton
    { p with
      dataTheme := some theme
      localStorage := { p.localStorage with theme := some theme } }
    theme

/-! ## Auxiliary facts -/

theorem slice_zero {α : Type} (xs : List α) (n : Nat) : slice xs 0 n = xs.take n := by
  simp only [slice]
  have h : ¬ ((n : Int) < 0) := by omega
  simp only [lt_self_iff_false, if_false, h]
  have h0 : min (0 : Int) (xs.length : Int) = 0 := by omega
  rw [h0]
  simp only [Int.toNat_zero, List.drop_zero, sub_zero]
  by_cases hn : n ≤ xs.length
  · have : min (n : Int) (xs.length : Int) = n := by omega
    rw [this]; simp
  · have : min (n : Int) (xs.length : Int) = xs.length := by omega
    rw [this]
    simp only [Int.toNat_ofNat]
    rw [List.take_of_length_le (le_refl _), List.take_of_length_le (by omega)]

theorem displayItems_eq (items : List JSString) : displayItems items = items.take 10 :=
  slice_zero items 10

theorem trim_eq_nil_iff (q : JSString) : trim q = [] ↔ ∀ u ∈ q, isWhiteSpace u = true := by
  unfold trim
  rw [List.reverse_eq_nil_iff, List.dropWhile_eq_nil_iff]
  constructor
  · intro h
    by_contra hne
    push_neg at hne
    obtain ⟨u, hu, hw⟩ := hne
    have hne2 : q.dropWhile isWhiteSpace ≠ [] := by
      intro h0
      rw [List.dropWhile_eq_nil_iff] at h0
      exact hw (h0 u hu)
    have hhead := List.head_dropWhile_not isWhiteSpace q hne2
    have hmem : (q.dropWhile isWhiteSpace).head hne2 ∈ (q.dropWhile isWhiteSpace).reverse :=
      List.mem_reverse.mpr (List.head_mem hne2)
    have := h _ hmem
    simp [this] at hhead
  · intro h u hu
    have h0 : q.dropWhile isWhiteSpace = [] := (List.dropWhile_eq_nil_iff).mpr h
    rw [h0] at hu
    simp at hu

/-- The list `saveSearchQuery` leaves in `searchHistoryItems` for a query that
passes the guard. -/
theorem saveSearchQuery_items (p : Page) (q : JSString) (h : trim q ≠ []) :
    (saveSearchQuery p q).searchHistoryItems
      = (q :: p.searchHistoryItems.filter (fun item => item != q)).take 20 := by
  have ht : (trim q).truthy = true := by
    cases hq : trim q with
    | nil => exact absurd hq h
    | cons a l => rfl
  simp only [saveSearchQuery, ht, Bool.not_true, Bool.false_eq_true, if_false, renderSearchHistory,
    gt_iff_lt]
  split
  · exact slice_zero _ 20
  · rename_i hlen
    rw [List.take_of_length_le (by omega)]

theorem saveSearchQuery_of_trim_nil (p : Page) (q : JSString) (h : trim q = []) :
    saveSearchQuery p q = p := by
  simp [saveSearchQuery, h, JSString.truthy]

theorem saveSearchQuery_storage (p : Page) (q : JSString) (h : trim q ≠ []) :
    (saveSearchQuery p q).localStorage.searchHistory
      = some (JSON.stringify (saveSearchQuery p q).searchHistoryItems) := by
  have ht : (trim q).truthy = true := by
    cases hq : trim q with
    | nil => exact absurd hq h
    | cons a l => rfl
  simp only [saveSearchQuery, ht, Bool.not_true, Bool.false_eq_true, if_false, renderSearchHistory]

theorem trim_ne_nil (q : JSString) (h : ∃ u ∈ q, isWhiteSpace u = false) : trim q ≠ [] := by
  intro h0
  obtain ⟨u, hu, hw⟩ := h
  have := (trim_eq_nil_iff q).mp h0 u hu
  simp [this] at hw

theorem not_mem_filter_ne (l : List JSString) (q : JSString) :
    q ∉ l.filter (fun item => item != q) := by
  simp [List.mem_filter]

/-- The whole page `saveSearchQuery` leaves for a query that passes the guard. -/
theorem saveSearchQuery_eq (p : Page) (q : JSString) (h : trim q ≠ []) :
    saveSearchQuery p q =
      { searchHistoryItems := (saveSearchQuery p q).searchHistoryItems
        localStorage :=
          { p.localStorage with
            searchHistory := some (JSON.stringify (saveSearchQuery p q).searchHistoryItems) }
        searchHistory := displayItems (saveSearchQuery p q).searchHistoryItems } := by
  have ht : (trim q).truthy = true := by
    cases hq : trim q with
    | nil => exact absurd hq h
    | cons a l => rfl
  simp only [saveSearchQuery, ht, Bool.not_true, Bool.false_eq_true, if_false, renderSearchHistory]

theorem head_saveSearchQuery (p : Page) (q : JSString) (h : trim q ≠ []) :
    (saveSearchQuery p q).searchHistoryItems[0]? = some q := by
  rw [saveSearchQuery_items p q h]
  simp

theorem saveSearchQuery_length_le (p : Page) (q : JSString)
    (h : p.searchHistoryItems.length ≤ 20) :
    (saveSearchQuery p q).searchHistoryItems.length ≤ 20 := by
  by_cases hq : trim q = []
  · rw [saveSearchQuery_of_trim_nil p q hq]; exact h
  · rw [saveSearchQuery_items p q hq, List.length_take]
    exact Nat.min_le_left _ _

theorem saveAll_append (p : Page) (qs : List JSString) (q : JSString) :
    saveAll p (qs ++ [q]) = saveSearchQuery (saveAll p qs) q := by
  simp [saveAll, List.foldl_append]

theorem saveAll_invariant (p0 : Page) (queries : List JSString) :
    ∀ p : Page,
      (p.searchHistoryItems.length ≤ 20 ∧
        (p.localStorage.searchHistory = p0.localStorage.searchHistory ∨
          p.localStorage.searchHistory = some (JSON.stringify p.searchHistoryItems))) →
      ((saveAll p queries).searchHistoryItems.length ≤ 20 ∧
        ((saveAll p queries).localStorage.searchHistory = p0.localStorage.searchHistory ∨
          (saveAll p queries).localStorage.searchHistory
            = some (JSON.stringify (saveAll p queries).searchHistoryItems))) := by
  induction queries with
  | nil => intro p h; exact h
  | cons q qs ih =>
    intro p h
    have hstep : saveAll p (q :: qs) = saveAll (saveSearchQuery p q) qs := rfl
    rw [hstep]
    apply ih
    refine ⟨saveSearchQuery_length_le p q h.1, ?_⟩
    by_cases hq : trim q = []
    · rw [saveSearchQuery_of_trim_nil p q hq]; exact h.2
    · exact Or.inr (saveSearchQuery_storage p q hq)

theorem saveSearchQuery_nodup (p : Page) (q : JSString) (h : p.searchHistoryItems.Nodup) :
    (saveSearchQuery p q).searchHistoryItems.Nodup := by
  by_cases hq : trim q = []
  · rw [saveSearchQuery_of_trim_nil p q hq]; exact h
  · rw [saveSearchQuery_items p q hq]
    apply List.Nodup.sublist (List.take_sublist _ _)
    exact List.nodup_cons.mpr ⟨not_mem_filter_ne _ _, h.filter _⟩

theorem saveAll_nodup (queries : List JSString) :
    ∀ p : Page, p.searchHistoryItems.Nodup → (saveAll p queries).searchHistoryItems.Nodup := by
  induction queries with
  | nil => intro p h; exact h
  | cons q qs ih => intro p h; exact ih _ (saveSearchQuery_nodup p q h)

theorem filter_ne_of_not_mem (l : List JSString) (q : JSString) (h : q ∉ l) :
    l.filter (fun item => item != q) = l := by
  rw [List.filter_eq_self]
  intro a ha
  simp only [bne_iff_ne, ne_eq]
  intro hq
  exact h (hq ▸ ha)

theorem perm_cons_filter_ne (l : List JSString) (q : JSString) (hn : l.Nodup) (hm : q ∈ l) :
    (q :: l.filter (fun item => item != q)).Perm l := by
  induction l with
  | nil => simp at hm
  | cons a t ih =>
    rw [List.nodup_cons] at hn
    by_cases ha : a = q
    · subst ha
      have hf : List.filter (fun item => item != a) (a :: t) = t := by
        rw [List.filter_cons]
        simp only [bne_self_eq_false, Bool.false_eq_true, if_false]
        exact filter_ne_of_not_mem t a hn.1
      rw [hf]
    · have hq : q ∈ t := by
        rcases List.mem_cons.mp hm with h | h
        · exact absurd h.symm ha
        · exact h
      have hf : List.filter (fun item => item != q) (a :: t)
          = a :: List.filter (fun item => item != q) t := by
        rw [List.filter_cons]
        simp [ha]
      rw [hf]
      exact (List.Perm.swap a q _).trans ((ih hn.2 hq).cons a)

theorem items_saveAll_of_nodup (queries : List JSString) :
    queries.Nodup → (∀ q ∈ queries, ∃ u ∈ q, isWhiteSpace u = false) →
      (saveAll Page.empty queries).searchHistoryItems = queries.reverse.take 20 := by
  induction queries using List.reverseRecOn with
  | nil => intro _ _; rfl
  | append_singleton qs q ih =>
    intro hd hb
    have hd2 : qs.Nodup ∧ q ∉ qs := by
      rw [List.nodup_append] at hd
      refine ⟨hd.1, fun hm => ?_⟩
      exact hd.2.2 hm (List.mem_singleton.mpr rfl)
    have hprev := ih hd2.1 (fun x hx => hb x (List.mem_append_left _ hx))
    have hq : trim q ≠ [] := trim_ne_nil q (hb q (by simp))
    rw [saveAll_append, saveSearchQuery_items _ _ hq, hprev]
    have hnot : q ∉ qs.reverse.take 20 := fun hm =>
      hd2.2 (List.mem_reverse.mp (List.mem_of_mem_take hm))
    rw [filter_ne_of_not_mem _ _ hnot, List.reverse_append]
    simp only [List.reverse_cons, List.reverse_nil, List.nil_append, List.singleton_append,
      List.take_succ_cons, List.take_take]
    norm_num

theorem hexValue_hexDigit (d : Nat) (h : d < 16) : hexValue (hexDigit d) = some d := by
  interval_cases d <;> rfl

theorem parseStringBody_unicodeEscape (u : Nat) (h : u < 65536) (rest : List Nat) :
    parseStringBody (unicodeEscape u ++ rest)
      = (parseStringBody rest).andThen fun r => .value (u :: r.1, r.2) := by
  have h3 : u / 4096 % 16 < 16 := Nat.mod_lt _ (by norm_num)
  have h2 : u / 256 % 16 < 16 := Nat.mod_lt _ (by norm_num)
  have h1 : u / 16 % 16 < 16 := Nat.mod_lt _ (by norm_num)
  have h0 : u % 16 < 16 := Nat.mod_lt _ (by norm_num)
  have hu : u / 4096 % 16 * 4096 + u / 256 % 16 * 256 + u / 16 % 16 * 16 + u % 16 = u := by
    omega
  simp only [unicodeEscape, List.cons_append, List.nil_append]
  rw [parseStringBody.eq_def]
  simp only [Nat.reduceBEq, Bool.false_eq_true, if_false, BEq.refl, if_true]
  rw [hexValue_hexDigit _ h3, hexValue_hexDigit _ h2, hexValue_hexDigit _ h1,
    hexValue_hexDigit _ h0]
  simp only [hu]

theorem parseStringBody_plain (u : Nat) (rest : List Nat) (h1 : u ≠ 0x22) (h2 : u ≠ 0x5C)
    (h3 : ¬ u < 0x20) :
    parseStringBody (u :: rest)
      = (parseStringBody rest).andThen fun r => .value (u :: r.1, r.2) := by
  rw [parseStringBody.eq_def]
  simp [h1, h2, h3]

theorem parseStringBody_escape (e x : Nat) (rest : List Nat) (he : e ≠ 0x75)
    (hx : escapeValue e = some x) :
    parseStringBody (0x5C :: e :: rest)
      = (parseStringBody rest).andThen fun r => .value (x :: r.1, r.2) := by
  rw [parseStringBody.eq_def]
  simp [he, hx]

theorem parseStringBody_quoteUnit (u : Nat) (rest : List Nat) :
    parseStringBody (quoteUnit u ++ rest)
      = (parseStringBody rest).andThen fun r => .value (u :: r.1, r.2) := by
  unfold quoteUnit
  split_ifs with c1 c2 c3 c4 c5 c6 c7 c8
  all_goals simp only [beq_iff_eq] at *
  · subst c1; exact parseStringBody_escape _ _ _ (by decide) rfl
  · subst c2; exact parseStringBody_escape _ _ _ (by decide) rfl
  · subst c3; exact parseStringBody_escape _ _ _ (by decide) rfl
  · subst c4; exact parseStringBody_escape _ _ _ (by decide) rfl
  · subst c5; exact parseStringBody_escape _ _ _ (by decide) rfl
  · subst c6; exact parseStringBody_escape _ _ _ (by decide) rfl
  · subst c7; exact parseStringBody_escape _ _ _ (by decide) rfl
  · apply parseStringBody_unicodeEscape
    simp only [isLeadingSurrogate, isTrailingSurrogate, Bool.or_eq_true, decide_eq_true_eq,
      Bool.and_eq_true] at c8
    omega
  · simp only [isLeadingSurrogate, isTrailingSurrogate, Bool.or_eq_true, decide_eq_true_eq,
      Bool.and_eq_true, not_or] at c8
    exact parseStringBody_plain u rest c6 c7 c8.1.1

theorem parseStringBody_quote (rest : List Nat) :
    parseStringBody (0x22 :: rest) = .value ([], rest) := by
  rw [parseStringBody.eq_def]
  simp

theorem parseStringBody_quoteBody (s : JSString) (rest : List Nat) :
    parseStringBody (quoteBody s ++ 0x22 :: rest) = .value (s, rest) := by
  induction s using quoteBody.induct with
  | case1 => simp only [quoteBody, List.nil_append]; exact parseStringBody_quote rest
  | case2 u =>
    simp only [quoteBody]
    rw [parseStringBody_quoteUnit, parseStringBody_quote]
    rfl
  | case3 u v tl hpair ih =>
    simp only [quoteBody, hpair, if_true, List.cons_append]
    simp only [isLeadingSurrogate, isTrailingSurrogate, Bool.and_eq_true,
      decide_eq_true_eq] at hpair
    rw [parseStringBody_plain u _ (by omega) (by omega) (by omega),
      parseStringBody_plain v _ (by omega) (by omega) (by omega), ih]
    rfl
  | case4 u v tl hpair ih =>
    simp only [quoteBody, hpair, Bool.false_eq_true, if_false, List.append_assoc]
    rw [parseStringBody_quoteUnit, ih]
    rfl

theorem skipWS_cons (u : Nat) (rest : List Nat) (h : isJSONWhiteSpace u = false) :
    skipWS (u :: rest) = u :: rest := by
  simp [skipWS, List.dropWhile, h]

theorem parseValue_quoteJSONString (fuel : Nat) (s : JSString) (rest : List Nat) :
    parseValue (fuel + 1) (quoteJSONString s ++ rest) = .value (.string s, rest) := by
  simp only [quoteJSONString, List.cons_append, List.append_assoc, List.nil_append]
  rw [parseValue]
  simp only [BEq.refl, if_true]
  rw [parseStringBody_quoteBody]
  rfl

theorem parseElements_joinComma (xs : List JSString) :
    ∀ (x : JSString) (fuel : Nat) (rest : List Nat), xs.length + 2 ≤ fuel →
      parseElements fuel (joinComma ((x :: xs).map quoteJSONString) ++ 0x5D :: rest)
        = .value ((x :: xs).map JSValue.string, rest) := by
  induction xs with
  | nil =>
    intro x fuel rest hf
    obtain ⟨f, rfl⟩ : ∃ f, fuel = f + 2 := ⟨fuel - 2, by simp at hf; omega⟩
    simp only [List.map_cons, List.map_nil, joinComma]
    rw [parseElements, parseValue_quoteJSONString]
    simp only [Completion.andThen]
    rw [skipWS_cons _ _ (by decide)]
    simp
  | cons y ys ih =>
    intro x fuel rest hf
    obtain ⟨f, rfl⟩ : ∃ f, fuel = f + 2 := ⟨fuel - 2, by simp at hf; omega⟩
    have hrec := ih y (f + 1) rest (by simp at hf ⊢; omega)
    simp only [List.map_cons, joinComma, List.append_assoc, List.cons_append] at hrec ⊢
    rw [parseElements, parseValue_quoteJSONString]
    simp only [Completion.andThen]
    rw [skipWS_cons _ _ (by decide)]
    simp only [BEq.refl, if_true]
    have hq : skipWS (joinComma (quoteJSONString y :: List.map quoteJSONString ys)
        ++ 0x5D :: rest)
        = joinComma (quoteJSONString y :: List.map quoteJSONString ys) ++ 0x5D :: rest := by
      cases hys : List.map quoteJSONString ys with
      | nil =>
        simp only [joinComma, quoteJSONString, List.cons_append]
        exact skipWS_cons _ _ (by decide)
      | cons z zs =>
        simp only [joinComma, quoteJSONString, List.cons_append]
        exact skipWS_cons _ _ (by decide)
    rw [hq, hrec]

theorem length_le_joinComma (items : List JSString) :
    items.length ≤ (joinComma (items.map quoteJSONString)).length := by
  induction items with
  | nil => simp
  | cons x xs ih =>
    cases xs with
    | nil => simp [joinComma, quoteJSONString]
    | cons y ys =>
      simp only [List.map_cons, joinComma, List.length_append, List.length_cons] at ih ⊢
      omega

/-- Reading back what `JSON.stringify` wrote for an array of strings gives the
array. -/
theorem JSON_parse_stringify (items : List JSString) :
    JSON.parse (JSON.stringify items) = .value (.array (items.map JSValue.string)) := by
  unfold JSON.parse JSON.stringify
  rw [skipWS_cons _ _ (by decide)]
  have hlen := length_le_joinComma items
  cases items with
  | nil =>
    simp only [List.map_nil, joinComma, List.nil_append, List.length_cons, List.length_nil]
    rfl
  | cons x xs =>
    have hfuel : ∃ f, 2 * (0x5B :: (joinComma ((x :: xs).map quoteJSONString)
        ++ [0x5D])).length + 2 = f + 1 ∧ xs.length + 2 ≤ f := by
      refine ⟨2 * (0x5B :: (joinComma ((x :: xs).map quoteJSONString)
        ++ [0x5D])).length + 1, rfl, ?_⟩
      simp only [List.length_cons, List.length_append, List.length_nil] at hlen ⊢
      omega
    obtain ⟨f, hf, hle⟩ := hfuel
    rw [hf, parseValue]
    simp only [Nat.reduceBEq, Bool.false_eq_true, if_false, BEq.refl, if_true]
    have hq : skipWS (joinComma ((x :: xs).map quoteJSONString) ++ [0x5D])
        = 0x22 :: (quoteBody x ++ 0x22 :: (match xs.map quoteJSONString with
            | [] => []
            | y :: ys => 0x2C :: joinComma (y :: ys)) ++ [0x5D]) := by
      cases hxs : xs.map quoteJSONString with
      | nil =>
        simp only [List.map_cons, hxs, joinComma, quoteJSONString, List.cons_append,
          List.append_assoc, List.nil_append]
        exact skipWS_cons _ _ (by decide)
      | cons z zs =>
        simp only [List.map_cons, hxs, joinComma, quoteJSONString, List.cons_append,
          List.append_assoc, List.nil_append]
        exact skipWS_cons _ _ (by decide)
    have hq2 : 0x22 :: (quoteBody x ++ 0x22 :: (match xs.map quoteJSONString with
            | [] => []
            | y :: ys => 0x2C :: joinComma (y :: ys)) ++ [0x5D])
        = joinComma ((x :: xs).map quoteJSONString) ++ [0x5D] := by
      cases hxs : xs.map quoteJSONString with
      | nil =>
        simp only [List.map_cons, hxs, joinComma, quoteJSONString, List.cons_append,
          List.append_assoc, List.nil_append]
      | cons z zs =>
        simp only [List.map_cons, hxs, joinComma, quoteJSONString, List.cons_append,
          List.append_assoc, List.nil_append]
    rw [hq]
    simp only [Nat.reduceBEq, Bool.false_eq_true, if_false]
    rw [hq2, parseElements_joinComma xs x f [] hle]
    rfl

/-! ### The parser never runs out of fuel -/

theorem within_syntaxError {α : Type} (n : Nat) :
    (Completion.syntaxError : Completion (α × List Nat)).Within n := by
  unfold Completion.Within
  constructor
  · intro h; cases h
  · intro v rest h; cases h

theorem within_value {α : Type} {n : Nat} (v : α) (rest : List Nat) (h : rest.length ≤ n) :
    (Completion.value (v, rest)).Within n := by
  unfold Completion.Within
  constructor
  · intro h0; cases h0
  · intro v2 rest2 h2
    cases h2
    exact h

theorem within_mono {α : Type} {c : Completion (α × List Nat)} {n m : Nat} (h : c.Within n)
    (hnm : n ≤ m) : c.Within m :=
  ⟨h.1, fun v rest hv => le_trans (h.2 v rest hv) hnm⟩

theorem within_andThen {α β : Type} {c : Completion (α × List Nat)}
    {f : α × List Nat → Completion (β × List Nat)} {n m : Nat} (hc : c.Within n)
    (hf : ∀ v rest, rest.length ≤ n → (f (v, rest)).Within m) : (c.andThen f).Within m := by
  cases c with
  | value w =>
    obtain ⟨v, rest⟩ := w
    exact hf v rest (hc.2 v rest rfl)
  | syntaxError => exact within_syntaxError m
  | outOfFuel => exact absurd rfl hc.1

theorem length_skipWS_le (input : List Nat) : (skipWS input).length ≤ input.length :=
  (List.dropWhile_sublist _).length_le

theorem within_parseStringBody (n : Nat) :
    ∀ input : List Nat, input.length ≤ n → (parseStringBody input).Within (input.length - 1) := by
  induction n with
  | zero =>
    intro input h
    cases input with
    | nil => rw [parseStringBody.eq_def]; exact within_syntaxError _
    | cons u rest => simp at h
  | succ n ih =>
    intro input h
    rw [parseStringBody.eq_def]
    cases input with
    | nil => exact within_syntaxError _
    | cons u rest =>
      simp only [List.length_cons] at h ⊢
      split_ifs
      · exact within_value _ _ (by simp)
      · cases rest with
        | nil => exact within_syntaxError _
        | cons e rest2 =>
          simp only
          split_ifs
          · split
            · rename_i a b c d rest3
              split
              · apply within_andThen (ih rest3 (by simp at h; omega))
                intro v r hr
                exact within_value _ _ (by simp at hr ⊢; omega)
              · exact within_syntaxError _
            · exact within_syntaxError _
          · split
            · apply within_andThen (ih rest2 (by simp at h; omega))
              intro v r hr
              exact within_value _ _ (by simp at hr ⊢; omega)
            · exact within_syntaxError _
      · exact within_syntaxError _
      · apply within_andThen (ih rest (by omega))
        intro v r hr
        exact within_value _ _ (by simp at hr ⊢; omega)

theorem within_parseFraction (input : List Nat) : (parseFraction input).Within input.length := by
  unfold parseFraction
  split
  · rename_i u rest
    split_ifs
    · exact within_syntaxError _
    · exact within_value _ _
        (le_trans (List.dropWhile_sublist _).length_le (by simp))
    · exact within_value _ _ (le_refl _)
  · exact within_value _ _ (le_refl _)

theorem within_parseExponentDigits (negative : Bool) (input : List Nat) :
    (parseExponentDigits negative input).Within input.length := by
  unfold parseExponentDigits
  by_cases h : (input.takeWhile isDigit).isEmpty = true
  · simp only [h, if_true]
    exact within_syntaxError _
  · simp only [h, Bool.false_eq_true, if_false]
    exact within_value _ _ (List.dropWhile_sublist _).length_le

theorem within_parseExponent (input : List Nat) : (parseExponent input).Within input.length := by
  unfold parseExponent
  split
  · rename_i u rest
    split_ifs
    · split
      · rename_i s rest2
        split_ifs
        · exact within_mono (within_parseExponentDigits _ _) (by simp; omega)
        · exact within_mono (within_parseExponentDigits _ _) (by simp; omega)
        · exact within_mono (within_parseExponentDigits _ _) (by simp)
      · exact within_syntaxError _
    · exact within_value _ _ (le_refl _)
  · exact within_value _ _ (le_refl _)

theorem within_parseUnsigned (negative : Bool) (input : List Nat) :
    (parseUnsigned negative input).Within (input.length - 1) := by
  unfold parseUnsigned
  split
  · rename_i u rest
    by_cases hd : (!isDigit u) = true
    · simp only [hd, if_true]
      exact within_syntaxError _
    · simp only [hd, Bool.false_eq_true, if_false]
      have hafter : (if (u == 0x30) = true then rest else rest.dropWhile isDigit).length
          ≤ rest.length := by
        split_ifs
        · exact le_refl _
        · exact (List.dropWhile_sublist _).length_le
      apply within_andThen (within_parseFraction _)
      intro f r hr
      apply within_andThen (within_parseExponent _)
      intro e r2 hr2
      apply within_value
      simp only [List.length_cons, Nat.add_sub_cancel]
      exact le_trans hr2 (le_trans hr hafter)
  · exact within_syntaxError _

theorem within_parseNumber (input : List Nat) :
    (parseNumber input).Within (input.length - 1) := by
  unfold parseNumber
  split
  · rename_i u rest
    split_ifs
    · exact within_mono (within_parseUnsigned _ _) (by simp)
    · exact within_parseUnsigned _ _
  · exact within_syntaxError _

theorem within_parseLiteral (input : List Nat) :
    (parseLiteral input).Within (input.length - 1) := by
  unfold parseLiteral
  split_ifs
  · exact within_value _ _ (by simp; omega)
  · exact within_value _ _ (by simp; omega)
  · exact within_value _ _ (by simp; omega)
  · exact within_syntaxError _

theorem within_parse (fuel : Nat) :
    (∀ input : List Nat, 2 * input.length + 1 ≤ fuel →
        (parseValue fuel input).Within (input.length - 1)) ∧
      (∀ input : List Nat, 2 * input.length + 2 ≤ fuel →
        (parseElements fuel input).Within (input.length - 1)) ∧
      (∀ input : List Nat, 2 * input.length + 2 ≤ fuel →
        (parseMembers fuel input).Within (input.length - 1)) := by
  induction fuel with
  | zero => refine ⟨?_, ?_, ?_⟩ <;> intro input h <;> omega
  | succ f ih =>
    obtain ⟨ihV, ihE, ihM⟩ := ih
    refine ⟨?_, ?_, ?_⟩
    · intro input h
      cases input with
      | nil => rw [parseValue]; exact within_syntaxError _
      | cons u rest =>
        rw [parseValue]
        simp only [List.length_cons] at h
        split_ifs
        · apply within_andThen (within_parseStringBody _ rest le_rfl)
          intro v r hr
          exact within_value _ _ (by simp at hr ⊢; omega)
        · split
          · exact within_syntaxError _
          · rename_i v rest2 heq
            have hl := length_skipWS_le rest
            rw [heq] at hl
            simp only [List.length_cons] at hl
            split_ifs
            · exact within_value _ _ (by simp; omega)
            · apply within_andThen (ihE (v :: rest2) (by simp; omega))
              intro x r hr
              exact within_value _ _ (by simp at hr ⊢; omega)
        · split
          · exact within_syntaxError _
          · rename_i v rest2 heq
            have hl := length_skipWS_le rest
            rw [heq] at hl
            simp only [List.length_cons] at hl
            split_ifs
            · exact within_value _ _ (by simp; omega)
            · apply within_andThen (ihM (v :: rest2) (by simp; omega))
              intro x r hr
              exact within_value _ _ (by simp at hr ⊢; omega)
        · exact within_parseNumber _
        · exact within_parseLiteral _
    · intro input h
      rw [parseElements]
      apply within_andThen (ihV input (by omega))
      intro v r hr
      simp only
      split
      · exact within_syntaxError _
      · rename_i c rest heq
        have hl := length_skipWS_le r
        rw [heq] at hl
        simp only [List.length_cons] at hl
        have hl2 := length_skipWS_le rest
        split_ifs
        · apply within_andThen (ihE (skipWS rest) (by omega))
          intro vs r2 hr2
          exact within_value _ _ (by simp at hr2 ⊢; omega)
        · exact within_value _ _ (by omega)
        · exact within_syntaxError _
    · intro input h
      cases input with
      | nil => rw [parseMembers]; exact within_syntaxError _
      | cons q afterQuote =>
        rw [parseMembers]
        simp only [List.length_cons] at h
        split_ifs
        · exact within_syntaxError _
        · apply within_andThen (within_parseStringBody _ afterQuote le_rfl)
          intro k rk hrk
          simp only
          split
          · exact within_syntaxError _
          · rename_i colon afterColon heq
            have hl := length_skipWS_le rk
            rw [heq] at hl
            simp only [List.length_cons] at hl
            have hl2 := length_skipWS_le afterColon
            split_ifs
            · exact within_syntaxError _
            · apply within_andThen (ihV (skipWS afterColon) (by omega))
              intro v r hr
              simp only
              split
              · exact within_syntaxError _
              · rename_i c rest heq2
                have hl3 := length_skipWS_le r
                rw [heq2] at hl3
                simp only [List.length_cons] at hl3
                have hl4 := length_skipWS_le rest
                split_ifs
                · apply within_andThen (ihM (skipWS rest) (by omega))
                  intro ms r2 hr2
                  exact within_value _ _ (by simp at hr2 ⊢; omega)
                · exact within_value _ _ (by simp; omega)
                · exact within_syntaxError _

/-- `JSON.parse` ends with a value or with `SyntaxError` on every text: the
fuel it gives the parser is never used up. -/
theorem JSON_parse_ne_outOfFuel (text : JSString) : JSON.parse text ≠ .outOfFuel := by
  unfold JSON.parse
  have hV := (within_parse (2 * text.length + 2)).1 (skipWS text)
    (by have := length_skipWS_le text; omega)
  cases hp : parseValue (2 * text.length + 2) (skipWS text) with
  | value w =>
    simp only [Completion.andThen]
    split
    · intro h; cases h
    · intro h; cases h
  | syntaxError => intro h; cases h
  | outOfFuel => exact absurd hp hV.1

theorem loadSearchHistory_of_stringify (localStorage : LocalStorage) (items : List JSString)
    (h : localStorage.searchHistory = some (JSON.stringify items)) :
    loadSearchHistory localStorage = .value (.array (items.map JSValue.string)) := by
  simp only [loadSearchHistory, h, JSON_parse_stringify, Completion.andThen, JSValue.truthy,
    if_true]

theorem asStrings_map_string (items : List JSString) :
    (JSValue.array (items.map JSValue.string)).asStrings = some items := by
  simp only [JSValue.asStrings]
  induction items with
  | nil => rfl
  | cons x xs ih => simp only [List.map_cons, List.foldr_cons, ih]

theorem loadSearchHistory_missing (localStorage : LocalStorage)
    (h : localStorage.searchHistory = none) :
    loadSearchHistory localStorage = .value (.array []) := by
  simp only [loadSearchHistory, h]
  rfl

theorem loadSearchHistory_syntaxError (localStorage : LocalStorage) (entry : JSString)
    (h : localStorage.searchHistory = some entry) (hp : JSON.parse entry = .syntaxError) :
    loadSearchHistory localStorage = .syntaxError := by
  simp only [loadSearchHistory, h, hp, Completion.andThen]

theorem loadSearchHistory_ne_outOfFuel (localStorage : LocalStorage) :
    loadSearchHistory localStorage ≠ .outOfFuel := by
  unfold loadSearchHistory
  simp only
  generalize (match localStorage.searchHistory with
    | none => utf16 "null"
    | some entry => entry) = text
  have h := JSON_parse_ne_outOfFuel text
  cases hp : JSON.parse text with
  | value v => intro h2; cases h2
  | syntaxError => intro h2; cases h2
  | outOfFuel => exact absurd hp h

theorem updateToggleButton_dataTheme (p : ThemePage) (theme : JSString) :
    (updateToggleButton p theme).dataTheme = p.dataTheme := by
  unfold updateToggleButton
  split_ifs <;> rfl

theorem updateToggleButton_localStorage (p : ThemePage) (theme : JSString) :
    (updateToggleButton p theme).localStorage = p.localStorage := by
  unfold updateToggleButton
  split_ifs <;> rfl

theorem newTheme_truthy (currentTheme : Option JSString) :
    (newTheme currentTheme).truthy = true := by
  unfold newTheme
  split_ifs <;> decide

theorem applySavedTheme_of_saved (q : ThemePage) (prefersDarkScheme : Bool)
    (savedTheme : JSString) (h : q.localStorage.theme = some savedTheme)
    (ht : savedTheme.truthy = true) :
    (applySavedTheme q prefersDarkScheme).dataTheme = some savedTheme := by
  simp only [applySavedTheme, h, ht, if_true, updateToggleButton_dataTheme]

/-! ## Search history: the claims -/

/-- C1: from a history of at most 20 entries (the empty one included), after
any sequence of `saveSearchQuery` calls `searchHistoryItems` has at most 20
entries, and the `searchHistory` entry of the storage is either the one from
before the calls (nothing was written) or the JSON text of that list. -/
theorem searchHistory_length_le_twenty (p : Page) (queries : List JSString)
    (h : p.searchHistoryItems.length ≤ 20) :
    (saveAll p queries).searchHistoryItems.length ≤ 20 ∧
      ((saveAll p queries).localStorage.searchHistory = p.localStorage.searchHistory ∨
        (saveAll p queries).localStorage.searchHistory
          = some (JSON.stringify (saveAll p queries).searchHistoryItems)) :=
  saveAll_invariant p queries p ⟨h, Or.inl rfl⟩

theorem searchHistory_length_le_twenty_witness :
    Page.empty.searchHistoryItems.length ≤ 20 ∧
      (saveAll Page.empty [utf16 "weather", utf16 "", utf16 "news"]).searchHistoryItems.length
        ≤ 20 :=
  ⟨by decide,
    (searchHistory_length_le_twenty Page.empty [utf16 "weather", utf16 "", utf16 "news"]
      (by decide)).1⟩

/-- C2, as stated, fails: after `saveSearchQuery("")` on the empty history the
empty string is not in the list. -/
theorem saveSearchQuery_empty_query_absent :
    ¬ ((saveSearchQuery Page.empty (utf16 "")).searchHistoryItems.count (utf16 "") = 1 ∧
        (saveSearchQuery Page.empty (utf16 "")).searchHistoryItems[0]? = some (utf16 "")) := by
  decide

/-- C2, amended: for every history list and every string `q` with a code unit
that is not white space, after `saveSearchQuery(q)` the string `q` occurs
exactly once in the history list, at index 0. -/
theorem saveSearchQuery_query_once_at_front (p : Page) (q : JSString)
    (h : ∃ u ∈ q, isWhiteSpace u = false) :
    (saveSearchQuery p q).searchHistoryItems.count q = 1 ∧
      (saveSearchQuery p q).searchHistoryItems[0]? = some q := by
  rw [saveSearchQuery_items p q (trim_ne_nil q h)]
  refine ⟨?_, by simp⟩
  simp only [List.take_succ_cons, List.count_cons_self]
  rw [List.count_eq_zero_of_not_mem]
  exact fun hm => not_mem_filter_ne _ _ (List.mem_of_mem_take hm)

theorem saveSearchQuery_query_once_at_front_witness :
    (∃ u ∈ utf16 "news", isWhiteSpace u = false) ∧
      (saveSearchQuery ⟨[utf16 "weather", utf16 "news"], LocalStorage.empty, []⟩
          (utf16 "news")).searchHistoryItems.count (utf16 "news") = 1 ∧
      (saveSearchQuery ⟨[utf16 "weather", utf16 "news"], LocalStorage.empty, []⟩
          (utf16 "news")).searchHistoryItems[0]? = some (utf16 "news") :=
  ⟨by decide,
    saveSearchQuery_query_once_at_front ⟨[utf16 "weather", utf16 "news"], LocalStorage.empty, []⟩
      (utf16 "news") (by decide)⟩

/-- C4: for a query that is empty or has only white space code units,
`saveSearchQuery` leaves the page as it was: the history list, the storage
and the displayed entries are unchanged. -/
theorem saveSearchQuery_blank_unchanged (p : Page) (q : JSString)
    (h : ∀ u ∈ q, isWhiteSpace u = true) : saveSearchQuery p q = p :=
  saveSearchQuery_of_trim_nil p q ((trim_eq_nil_iff q).mpr h)

theorem saveSearchQuery_blank_unchanged_witness :
    (∀ u ∈ utf16 " \t\n", isWhiteSpace u = true) ∧
      saveSearchQuery ⟨[utf16 "weather"], LocalStorage.empty, []⟩ (utf16 " \t\n")
        = ⟨[utf16 "weather"], LocalStorage.empty, []⟩ :=
  ⟨by decide,
    saveSearchQuery_blank_unchanged ⟨[utf16 "weather"], LocalStorage.empty, []⟩ (utf16 " \t\n")
      (by decide)⟩

/-- C5: `saveSearchQuery` keeps a history list without duplicates free of
duplicates, and every list reached from the empty history by `saveSearchQuery`
calls has no duplicates. -/
theorem searchHistory_no_duplicates :
    (∀ (p : Page) (q : JSString), p.searchHistoryItems.Nodup →
        (saveSearchQuery p q).searchHistoryItems.Nodup) ∧
      (∀ queries : List JSString, (saveAll Page.empty queries).searchHistoryItems.Nodup) :=
  ⟨saveSearchQuery_nodup, fun queries => saveAll_nodup queries Page.empty List.nodup_nil⟩

theorem searchHistory_no_duplicates_witness :
    (⟨[utf16 "weather", utf16 "news"], LocalStorage.empty, []⟩ : Page).searchHistoryItems.Nodup ∧
      (saveSearchQuery ⟨[utf16 "weather", utf16 "news"], LocalStorage.empty, []⟩
        (utf16 "news")).searchHistoryItems.Nodup :=
  ⟨by decide, searchHistory_no_duplicates.1 _ _ (by decide)⟩

/-- C6: recording pairwise distinct queries, none empty or white space only,
from the empty history leaves the last `min n 20` of them, most recent first;
with 21 queries these are all but the first one. -/
theorem saveAll_distinct_most_recent_first (queries : List JSString) (hd : queries.Nodup)
    (hb : ∀ q ∈ queries, ∃ u ∈ q, isWhiteSpace u = false) :
    (saveAll Page.empty queries).searchHistoryItems
        = (queries.drop (queries.length - min queries.length 20)).reverse ∧
      (queries.length = 21 →
        (saveAll Page.empty queries).searchHistoryItems = (queries.drop 1).reverse) := by
  have hmain := items_saveAll_of_nodup queries hd hb
  rw [List.take_reverse] at hmain
  constructor
  · rw [hmain]
    congr 2
    omega
  · intro hlen
    rw [hmain, hlen]

theorem saveAll_distinct_most_recent_first_witness :
    ((List.range 21).map fun i => [0x61 + i]).Nodup ∧
      (∀ q ∈ (List.range 21).map fun i => [0x61 + i], ∃ u ∈ q, isWhiteSpace u = false) ∧
      (saveAll Page.empty ((List.range 21).map fun i => [0x61 + i])).searchHistoryItems
        = ((List.range 20).map fun i => [0x61 + (i + 1)]).reverse :=
  ⟨by decide, by decide,
    ((saveAll_distinct_most_recent_first ((List.range 21).map fun i => [0x61 + i])
      (by decide) (by decide)).2 (by decide)).trans (by decide)⟩

/-- C7: on a history list without duplicates and of at most 20 entries,
`saveSearchQuery(q)` for a `q` of the list that is not white space only leaves
`q` followed by the other entries in their order: same length, a permutation
of the list before. -/
theorem saveSearchQuery_moves_to_front (p : Page) (q : JSString)
    (hn : p.searchHistoryItems.Nodup) (hl : p.searchHistoryItems.length ≤ 20)
    (hq : ∃ u ∈ q, isWhiteSpace u = false) (hm : q ∈ p.searchHistoryItems) :
    (saveSearchQuery p q).searchHistoryItems
        = q :: p.searchHistoryItems.filter (fun item => item != q) ∧
      (saveSearchQuery p q).searchHistoryItems.length = p.searchHistoryItems.length ∧
      (saveSearchQuery p q).searchHistoryItems.Perm p.searchHistoryItems := by
  have hperm := perm_cons_filter_ne p.searchHistoryItems q hn hm
  have hitems : (saveSearchQuery p q).searchHistoryItems
      = q :: p.searchHistoryItems.filter (fun item => item != q) := by
    rw [saveSearchQuery_items p q (trim_ne_nil q hq)]
    apply List.take_of_length_le
    rw [hperm.length_eq]
    exact hl
  rw [hitems]
  exact ⟨rfl, hperm.length_eq, hperm⟩

theorem saveSearchQuery_moves_to_front_witness :
    (saveAll Page.empty [utf16 "weather", utf16 "news"]).searchHistoryItems.Nodup ∧
      (saveAll Page.empty [utf16 "weather", utf16 "news"]).searchHistoryItems.length ≤ 20 ∧
      (∃ u ∈ utf16 "weather", isWhiteSpace u = false) ∧
      utf16 "weather" ∈ (saveAll Page.empty [utf16 "weather", utf16 "news"]).searchHistoryItems ∧
      (saveSearchQuery (saveAll Page.empty [utf16 "weather", utf16 "news"])
        (utf16 "weather")).searchHistoryItems = [utf16 "weather", utf16 "news"] :=
  ⟨by decide, by decide, by decide, by decide,
    (saveSearchQuery_moves_to_front (saveAll Page.empty [utf16 "weather", utf16 "news"])
      (utf16 "weather") (by decide) (by decide) (by decide) (by decide)).1.trans (by decide)⟩

/-- C9: `renderSearchHistory` displays `searchHistoryItems.slice(0, 10)`, which
has at most 10 entries, is an initial segment of the history list, and is the
whole list when that has at most 10 entries. -/
theorem displayItems_initial_segment (p : Page) :
    (renderSearchHistory p).searchHistory = displayItems p.searchHistoryItems ∧
      (displayItems p.searchHistoryItems).length ≤ 10 ∧
      displayItems p.searchHistoryItems <+: p.searchHistoryItems ∧
      (p.searchHistoryItems.length ≤ 10 →
        displayItems p.searchHistoryItems = p.searchHistoryItems) := by
  rw [displayItems_eq]
  refine ⟨displayItems_eq _, ?_, List.take_prefix _ _, fun h => List.take_of_length_le h⟩
  rw [List.length_take]
  exact Nat.min_le_left _ _

theorem displayItems_initial_segment_witness :
    (⟨[utf16 "weather", utf16 "news"], LocalStorage.empty, []⟩ : Page).searchHistoryItems.length
        ≤ 10 ∧
      displayItems [utf16 "weather", utf16 "news"] = [utf16 "weather", utf16 "news"] :=
  ⟨by decide,
    (displayItems_initial_segment ⟨[utf16 "weather", utf16 "news"], LocalStorage.empty, []⟩).2.2.2
      (by decide)⟩

/-- C10, as stated, fails: for the non-empty query of one space the history
list after two calls from the empty history does not have the query at index
0. -/
theorem space_query_twice_absent :
    utf16 " " ≠ [] ∧
      ¬ ((saveSearchQuery (saveSearchQuery Page.empty (utf16 " "))
          (utf16 " ")).searchHistoryItems[0]? = some (utf16 " ")) := by
  decide

/-- C10, amended: for every history list and every string `q` with a code
unit that is not white space, `saveSearchQuery(q)` called twice in a row
leaves the page that the first call left, with `q` at index 0 and the length
unchanged by the second call. -/
theorem saveSearchQuery_twice (p : Page) (q : JSString)
    (h : ∃ u ∈ q, isWhiteSpace u = false) :
    saveSearchQuery (saveSearchQuery p q) q = saveSearchQuery p q ∧
      (saveSearchQuery (saveSearchQuery p q) q).searchHistoryItems[0]? = some q ∧
      (saveSearchQuery (saveSearchQuery p q) q).searchHistoryItems.length
        = (saveSearchQuery p q).searchHistoryItems.length := by
  have hq := trim_ne_nil q h
  have hitems : (saveSearchQuery (saveSearchQuery p q) q).searchHistoryItems
      = (saveSearchQuery p q).searchHistoryItems := by
    rw [saveSearchQuery_items _ q hq, saveSearchQuery_items p q hq]
    have hf : ∀ l : List JSString,
        List.filter (fun item => item != q) (q :: l) = List.filter (fun item => item != q) l := by
      intro l
      simp [List.filter_cons]
    simp only [List.take_succ_cons, hf]
    rw [filter_ne_of_not_mem _ _
      (fun hm => not_mem_filter_ne _ _ (List.mem_of_mem_take hm))]
    simp only [List.take_take]
    norm_num
  have e1 := saveSearchQuery_eq p q hq
  have e2 := saveSearchQuery_eq (saveSearchQuery p q) q hq
  have hls : (saveSearchQuery p q).localStorage
      = { p.localStorage with
          searchHistory := some (JSON.stringify (saveSearchQuery p q).searchHistoryItems) } :=
    congrArg Page.localStorage e1
  have hpage : saveSearchQuery (saveSearchQuery p q) q = saveSearchQuery p q := by
    rw [hitems] at e2
    rw [e2]
    conv_rhs => rw [e1]
    rw [hls]
  refine ⟨hpage, ?_, by rw [hitems]⟩
  rw [hitems]
  exact (head_saveSearchQuery p q hq)

theorem saveSearchQuery_twice_witness :
    (∃ u ∈ utf16 "news", isWhiteSpace u = false) ∧
      saveSearchQuery
          (saveSearchQuery ⟨[utf16 "weather", utf16 "news"], LocalStorage.empty, []⟩
            (utf16 "news")) (utf16 "news")
        = saveSearchQuery ⟨[utf16 "weather", utf16 "news"], LocalStorage.empty, []⟩
            (utf16 "news") :=
  ⟨by decide,
    (saveSearchQuery_twice ⟨[utf16 "weather", utf16 "news"], LocalStorage.empty, []⟩
      (utf16 "news") (by decide)).1⟩

/-- C3, as stated, fails: with the entry `not json` the load throws
`SyntaxError` instead of yielding the empty list, and with the entry `5` it
yields a number, which is not a sequence of strings. -/
theorem loadSearchHistory_not_json_throws :
    loadSearchHistory { LocalStorage.empty with searchHistory := some (utf16 "not json") }
        = .syntaxError ∧
      loadSearchHistory { LocalStorage.empty with searchHistory := some (utf16 "5") }
        = .value (.number false 5 0) ∧
      (JSValue.number false 5 0).asStrings = none :=
  ⟨rfl, rfl, rfl⟩

/-- C3, amended: the load yields the empty list when the `searchHistory` entry
is missing; it yields the list of strings whose JSON text the entry is, so the
list `saveSearchQuery` stored is read back; when `JSON.parse` throws
`SyntaxError` on the entry, so does the load; and on every content the load
ends with a value or with that error. -/
theorem loadSearchHistory_outcomes :
    (∀ localStorage : LocalStorage, localStorage.searchHistory = none →
        loadSearchHistory localStorage = .value (.array [])) ∧
      (∀ (localStorage : LocalStorage) (items : List JSString),
        localStorage.searchHistory = some (JSON.stringify items) →
          loadSearchHistory localStorage = .value (.array (items.map JSValue.string)) ∧
            (JSValue.array (items.map JSValue.string)).asStrings = some items) ∧
      (∀ (p : Page) (q : JSString), (∃ u ∈ q, isWhiteSpace u = false) →
        loadSearchHistory (saveSearchQuery p q).localStorage
          = .value (.array ((saveSearchQuery p q).searchHistoryItems.map JSValue.string))) ∧
      (∀ (localStorage : LocalStorage) (entry : JSString),
        localStorage.searchHistory = some entry → JSON.parse entry = .syntaxError →
          loadSearchHistory localStorage = .syntaxError) ∧
      (∀ localStorage : LocalStorage, loadSearchHistory localStorage ≠ .outOfFuel) :=
  ⟨loadSearchHistory_missing,
    fun localStorage items h =>
      ⟨loadSearchHistory_of_stringify localStorage items h, asStrings_map_string items⟩,
    fun p q h =>
      loadSearchHistory_of_stringify _ _ (saveSearchQuery_storage p q (trim_ne_nil q h)),
    loadSearchHistory_syntaxError, loadSearchHistory_ne_outOfFuel⟩

theorem loadSearchHistory_outcomes_witness :
    (∃ u ∈ utf16 "weather", isWhiteSpace u = false) ∧
      loadSearchHistory (saveSearchQuery Page.empty (utf16 "weather")).localStorage
        = .value (.array [.string (utf16 "weather")]) :=
  ⟨by decide, loadSearchHistory_outcomes.2.2.1 Page.empty (utf16 "weather") (by decide)⟩

/-! ## Theme preference: the claim -/

/-- C8: when the displayed theme is `dark` the click handler computes `light`,
when it is `light` it computes `dark`; the computed theme becomes the displayed
one and is stored under `theme`; a later start with that storage displays the
stored theme whatever the system colour scheme preference is. -/
theorem theme_toggle_round_trip (p : ThemePage) :
    (p.dataTheme = some (utf16 "dark") → newTheme p.dataTheme = utf16 "light") ∧
      (p.dataTheme = some (utf16 "light") → newTheme p.dataTheme = utf16 "dark") ∧
      (themeToggleClick p).dataTheme = some (newTheme p.dataTheme) ∧
      (themeToggleClick p).localStorage.theme = some (newTheme p.dataTheme) ∧
      ∀ (q : ThemePage) (prefersDarkScheme : Bool),
        q.localStorage = (themeToggleClick p).localStorage →
          (applySavedTheme q prefersDarkScheme).dataTheme = some (newTheme p.dataTheme) := by
  have hclick : (themeToggleClick p).localStorage.theme = some (newTheme p.dataTheme) := by
    simp only [themeToggleClick, updateToggleButton_localStorage]
  refine ⟨?_, ?_, ?_, hclick, ?_⟩
  · intro hd
    rw [hd]
    decide
  · intro hl
    rw [hl]
    decide
  · simp only [themeToggleClick, updateToggleButton_dataTheme]
  · intro q prefersDarkScheme hq
    exact applySavedTheme_of_saved q prefersDarkScheme _ (by rw [hq]; exact hclick)
      (newTheme_truthy _)

theorem theme_toggle_round_trip_witness :
    (⟨some (utf16 "dark"), LocalStorage.empty, []⟩ : ThemePage).dataTheme = some (utf16 "dark") ∧
      newTheme (⟨some (utf16 "dark"), LocalStorage.empty, []⟩ : ThemePage).dataTheme
        = utf16 "light" ∧
      (themeToggleClick ⟨some (utf16 "dark"), LocalStorage.empty, []⟩).localStorage.theme
        = some (utf16 "light") ∧
      (applySavedTheme
          ⟨none, (themeToggleClick ⟨some (utf16 "dark"), LocalStorage.empty, []⟩).localStorage, []⟩
          true).dataTheme = some (utf16 "light") :=
  ⟨by decide,
    (theme_toggle_round_trip ⟨some (utf16 "dark"), LocalStorage.empty, []⟩).1 (by decide),
    (theme_toggle_round_trip ⟨some (utf16 "dark"), LocalStorage.empty, []⟩).2.2.2.1.trans
      (by decide),
    ((theme_toggle_round_trip ⟨some (utf16 "dark"), LocalStorage.empty, []⟩).2.2.2.2 _ true
      rfl).trans (by decide)⟩

end NicesGeo
